import Mathlib

/-!
Verification development for the LexTransition retrieval engine
(`engine/rag_engine.py`): PDF ingestion with a content-hash cache, a
page-level index, and a lexical search tier returning grounded snippets.

The Python code is shallowly embedded: page texts are `List Char`
(Python `str` methods `count`, `find`, `strip`, `lower`, `replace` and
slicing are modelled charwise on ASCII), file names / absolute paths /
content digests are opaque `String`s, the module-level mutable globals
(`_INDEX`, `_INDEX_LOADED`, `_EMB_INDEX`, `_LAST_INDEX_STATS`, the
persisted cache file) form an explicit `EngineState` record, and
`index_pdfs` / `search_pdfs` are pure state transformers.  The optional
embedding tiers are gated behind the `LTA_USE_EMBEDDINGS` environment
flag; the modelled configuration is the default one (flag unset), in
which both embedding tiers are statically disabled and only the guards
and the lexical tier of `search_pdfs` execute.
-/

namespace LexRag

/-- ASCII model of the whitespace class used by Python `str.strip()`. -/
def isPySpace (c : Char) : Bool :=
  c == ' ' || c == '\t' || c == '\n' || c == '\r' || c == Char.ofNat 11 || c == Char.ofNat 12

/-- Python `str.strip()`: drop leading and trailing whitespace. -/
def pyStrip (s : List Char) : List Char :=
  ((s.dropWhile isPySpace).reverse.dropWhile isPySpace).reverse

/-- The character class `[A-Za-z0-9]` of the tokenizing regex in
`_tokenize_query`. -/
def isAlnum (c : Char) : Bool :=
  (97 ≤ c.toNat && c.toNat ≤ 122) || (65 ≤ c.toNat && c.toNat ≤ 90) ||
    (48 ≤ c.toNat && c.toNat ≤ 57)

/-- `re.findall(r"[A-Za-z0-9]+", s)`: the maximal runs of alphanumeric
characters of `s`, in order.  `acc` holds the current run, reversed. -/
def alnumRunsGo (acc : List Char) : List Char → List (List Char)
  | [] => if acc = [] then [] else [acc.reverse]
  | c :: rest =>
    if isAlnum c then alnumRunsGo (c :: acc) rest
    else if acc = [] then alnumRunsGo [] rest
    else acc.reverse :: alnumRunsGo [] rest

/-- `_tokenize_query`: lowercase the query, take the alphanumeric runs,
drop empty fragments (`if t`).  `Char.toLower` is the ASCII model of
Python `str.lower()`. -/
def tokenize_query (query : List Char) : List (List Char) :=
  (alnumRunsGo [] (query.map Char.toLower)).filter (fun t => !t.isEmpty)

/-- The token `t` occurs in `s` at character offset `i`. -/
def occursAt (t s : List Char) (i : Nat) : Prop :=
  t.isPrefixOf (s.drop i) = true

instance (t s : List Char) (i : Nat) : Decidable (occursAt t s i) := by
  unfold occursAt
  exact inferInstance

/-- Scanning loop of Python `str.count` for a non-empty pattern `t`:
left-to-right scan counting non-overlapping occurrences; after a match
the scan resumes past the matched text (`skip` pending characters). -/
def countOccGo (t : List Char) : List Char → Nat → Nat
  | [], _ => 0
  | _ :: rest, skip + 1 => countOccGo t rest skip
  | c :: rest, 0 =>
    if t.isPrefixOf (c :: rest) then countOccGo t rest (t.length - 1) + 1
    else countOccGo t rest 0

/-- Python `s.count(t)`: number of non-overlapping occurrences of `t` in
`s` (for the empty pattern Python returns `len(s) + 1`). -/
def countOcc (t s : List Char) : Nat :=
  if t = [] then s.length + 1 else countOccGo t s 0

/-- Python `s.find(t)`: offset of the leftmost occurrence of `t` in `s`,
or `-1` when `t` does not occur. -/
def findSub (t : List Char) : List Char → Int
  | [] => if t.isPrefixOf [] then 0 else -1
  | c :: rest =>
    if t.isPrefixOf (c :: rest) then 0
    else if findSub t rest < 0 then -1 else findSub t rest + 1

/-- `min((txt.find(t) for t in tokens if txt.find(t) >= 0), default=-1)`
from the lexical tier of `search_pdfs`. -/
def firstPos (tokens : List (List Char)) (txt : List Char) : Int :=
  match (tokens.map (fun t => findSub t txt)).filter (fun p => decide (0 ≤ p)) with
  | [] => -1
  | p :: rest => rest.foldl min p

/-- The charwise effect of `snippet.replace("\n", " ")`. -/
def nlToSpace (c : Char) : Char :=
  if c = '\n' then ' ' else c

/-- One page record of the page-level index: `{"file": basename,
"page": i, "text": text}`. -/
structure Doc where
  file : String
  page : Nat
  text : List Char
deriving DecidableEq

/-- One tuple of the `scored` list built by the lexical tier:
`(score, file, page, snippet, start_offset, end_offset)`. -/
structure ScoredEntry where
  score : Nat
  file : String
  page : Nat
  snippet : List Char
  startOff : Nat
  endOff : Nat
deriving DecidableEq

/-- `sum(txt.count(t) for t in tokens)` where `txt = doc["text"].lower()`. -/
def scoreDoc (tokens : List (List Char)) (doc : Doc) : Nat :=
  (tokens.map (fun t => countOcc t (doc.text.map Char.toLower))).sum

/-- Lines 246-254 of `search_pdfs`: locate the earliest token position,
cut the snippet window out of the raw page text, record the offsets,
and replace newlines by spaces. -/
def mkEntry (tokens : List (List Char)) (doc : Doc) (score : Nat) : ScoredEntry :=
  let txt := doc.text.map Char.toLower
  let fp := firstPos tokens txt
  if 0 ≤ fp then
    let startOff := (max 0 fp).toNat
    let endOff := min doc.text.length (startOff + 300)
    ⟨score, doc.file, doc.page,
      ((doc.text.drop startOff).take (endOff - startOff)).map nlToSpace, startOff, endOff⟩
  else
    let endOff := min doc.text.length 200
    ⟨score, doc.file, doc.page,
      ((doc.text.drop 0).take (endOff - 0)).map nlToSpace, 0, endOff⟩

/-- The `scored` list of the lexical tier: every indexed page with a
positive score, in index order, turned into a scored entry. -/
def scoredList (tokens : List (List Char)) (index : List Doc) : List ScoredEntry :=
  index.filterMap (fun doc =>
    let score := scoreDoc tokens doc
    if 0 < score then some (mkEntry tokens doc score) else none)

/-- The ordering realised by `scored.sort(key=lambda x: x[0], reverse=True)`
on index-annotated entries: higher scores first, ties by original
position (Python `list.sort` is stable). -/
def keyLE (a b : Nat × ScoredEntry) : Prop :=
  b.2.score < a.2.score ∨ (a.2.score = b.2.score ∧ a.1 ≤ b.1)

instance keyLE.decRel : DecidableRel keyLE := by
  unfold keyLE
  exact fun a b => inferInstance

instance keyLE.isTotal : IsTotal (Nat × ScoredEntry) keyLE := by
  constructor
  intro a b
  unfold keyLE
  omega

instance keyLE.isTrans : IsTrans (Nat × ScoredEntry) keyLE := by
  constructor
  intro a b c
  unfold keyLE
  omega

/-- `scored.sort(key=lambda x: x[0], reverse=True)`: a stable descending
sort by score, i.e. the sort of the index-annotated list by
(score descending, original index ascending). -/
def pySortDesc (l : List ScoredEntry) : List ScoredEntry :=
  (l.enum.insertionSort keyLE).map Prod.snd

/-- `search_pdfs(query, top_k)` in the default configuration
(`LTA_USE_EMBEDDINGS` unset): both embedding tiers are disabled, so
after the guards only the lexical tier runs.  The current page-level
index is passed explicitly (the implicit `index_pdfs()` trigger for a
never-loaded index is the caller's concern); the returned value is the
list of scored result tuples that lines 259-265 format into markdown,
`none` standing for Python `None`. -/
def search_pdfs (index : List Doc) (query : List Char) (top_k : Int) : Option (List ScoredEntry) :=
  if query = [] ∨ pyStrip query = [] then none
  else if top_k ≤ 0 then none
  else if index = [] then none
  else
    let tokens := tokenize_query (pyStrip query)
    if tokens = [] then none
    else
      let scored := scoredList tokens index
      if scored = [] then none
      else some ((pySortDesc scored).take top_k.toNat)

/-! ### Ingestion (`index_pdfs` and its collaborators)

The file system is abstracted: an ingestion pass receives the sorted
list of `*.pdf` files currently in the directory.  For each file the
model records what the external libraries would do with it: `hashRes`
is the content digest `_hash_file` computes (`none` when hashing
raises), `pages` are the raw texts `pdfplumber` extracts page by page,
and `extractErr` says that extraction raises an exception after those
pages (so `pages = []` with `extractErr = true` is a file whose very
opening fails). -/

/-- One `*.pdf` file of the scanned directory, together with the
outcome of hashing and page extraction on it. -/
structure PdfFile where
  path : String
  base : String
  hashRes : Option String
  pages : List (List Char)
  extractErr : Bool
deriving DecidableEq

/-- One value of the persisted cache mapping:
`{"hash": file_hash, "docs": file_docs}`. -/
structure CacheEntry where
  hash : String
  docs : List Doc
deriving DecidableEq

/-- `_LAST_INDEX_STATS`: diagnostics of the last ingestion pass. -/
structure IndexStats where
  processed_files : Nat
  reused_files : Nat
  deleted_files : Nat
  total_docs : Nat
deriving DecidableEq

/-- The module-level mutable state of `rag_engine`: the page index, its
loaded flag, the embedding index, the diagnostics, and the content of
the persisted per-directory cache file (an insertion-ordered mapping
from absolute path to cache entry, as `_load_cache` would parse it). -/
structure EngineState where
  index : List Doc
  indexLoaded : Bool
  embIndex : List Doc
  stats : IndexStats
  diskCache : List (String × CacheEntry)
deriving DecidableEq

/-- The per-page loop of `index_pdfs`: enumerate pages from 1, strip
each page's text, keep the non-empty ones as page records. -/
def extractDocs (base : String) (pages : List (List Char)) : List Doc :=
  (pages.enumFrom 1).filterMap (fun p =>
    let text := pyStrip p.2
    if text = [] then none else some ⟨base, p.1, text⟩)

/-- Accumulated result of the per-file loop of `index_pdfs`: the page
records gathered so far, the entries of `new_cache["files"]` (in
insertion order), and the two counters. -/
structure PassAcc where
  docs : List Doc
  newFiles : List (String × CacheEntry)
  processed : Nat
  reused : Nat
deriving DecidableEq

/-- The body of the `try`/`except` around `pdfplumber.open` for a file
that is being (re)processed: `processed_files` was already incremented;
the pages extracted before any exception land in `docs`; only when no
exception occurs does the file get an entry in `new_cache`. -/
def extractStep (f : PdfFile) (h : String) (acc : PassAcc) : PassAcc :=
  let fd := extractDocs f.base f.pages
  if f.extractErr = true then
    { acc with docs := fd ++ acc.docs, processed := acc.processed + 1 }
  else
    { acc with docs := fd ++ acc.docs,
               newFiles := (f.path, ⟨h, fd⟩) :: acc.newFiles,
               processed := acc.processed + 1 }

/-- One iteration of the per-file loop of `index_pdfs` (lines 118-144):
a file whose hashing raises only bumps `processed_files`; a file whose
cached entry matches its digest is reused wholesale; any other file is
reprocessed via `extractStep`. -/
def stepFile (cached : List (String × CacheEntry)) (f : PdfFile) (acc : PassAcc) : PassAcc :=
  match f.hashRes with
  | none => { acc with processed := acc.processed + 1 }
  | some h =>
    match List.lookup f.path cached with
    | some e =>
      if e.hash = h then
        { acc with docs := e.docs ++ acc.docs,
                   newFiles := (f.path, e) :: acc.newFiles,
                   reused := acc.reused + 1 }
      else extractStep f h acc
    | none => extractStep f h acc

/-- The whole per-file loop of `index_pdfs`, iterating over the sorted
file list; results are accumulated in file order. -/
def processFiles (cached : List (String × CacheEntry)) : List PdfFile → PassAcc
  | [] => ⟨[], [], 0, 0⟩
  | f :: rest => stepFile cached f (processFiles cached rest)

/-- `index_pdfs(dir_path)` as a state transformer.  `plumber` is the
availability of `pdfplumber`; `files` is the sorted list of `*.pdf`
files in the directory; the previously persisted cache is read from
`st.diskCache` and the new one is written back to the post-state.  The
returned boolean is the function's return value.  In the modelled
default configuration `_USE_EMB` is false, so the embedding build at
the end of the function is dead code and `_EMB_INDEX` is only touched
by the empty-directory branch.  `deleted_files` reproduces
`max(0, len(cached_files) - len(new_cache["files"]))`, which over
natural numbers is truncated subtraction. -/
def index_pdfs (plumber : Bool) (files : List PdfFile) (st : EngineState) :
    Bool × EngineState :=
  if plumber = false then (false, st)
  else
    let cached := st.diskCache
    if files = [] then
      (true, { index := [], indexLoaded := true, embIndex := [],
               stats := ⟨0, 0, cached.length, 0⟩, diskCache := [] })
    else
      let acc := processFiles cached files
      (true, { index := acc.docs, indexLoaded := true, embIndex := st.embIndex,
               stats := ⟨acc.processed, acc.reused,
                         cached.length - acc.newFiles.length, acc.docs.length⟩,
               diskCache := acc.newFiles })

/-- `get_index_diagnostics()`: returns a copy of `_LAST_INDEX_STATS`;
modelled in state-passing style to make "no side effects" a statement
(the second component is the state after the read). -/
def get_index_diagnostics (st : EngineState) : IndexStats × EngineState :=
  (st.stats, st)

/-- A file is reused by a pass over cache `cached` exactly when its
digest is computed and matches its cached entry (line 127). -/
def isReused (cached : List (String × CacheEntry)) (f : PdfFile) : Bool :=
  match f.hashRes with
  | none => false
  | some h =>
    match List.lookup f.path cached with
    | none => false
    | some e => decide (e.hash = h)

/-- The cache entry that a pass over cache `cached` records for a file
that reaches `new_cache` (a reused file keeps its old entry; a freshly
processed one gets its new digest and page records).  The `none` arm is
a dummy: a file whose hashing fails never reaches `new_cache`. -/
def stepEntry (cached : List (String × CacheEntry)) (f : PdfFile) : CacheEntry :=
  match f.hashRes with
  | none => ⟨"", []⟩
  | some h =>
    match List.lookup f.path cached with
    | some e => if e.hash = h then e else ⟨h, extractDocs f.base f.pages⟩
    | none => ⟨h, extractDocs f.base f.pages⟩

/-- The page records a file contributes to the index during a pass over
cache `cached` (cached pages when reused, freshly extracted ones
otherwise, nothing when hashing fails). -/
def docsOf (cached : List (String × CacheEntry)) (f : PdfFile) : List Doc :=
  match f.hashRes with
  | none => []
  | some h =>
    match List.lookup f.path cached with
    | some e => if e.hash = h then e.docs else extractDocs f.base f.pages
    | none => extractDocs f.base f.pages

/-! ### Occurrence counting and first-occurrence search -/

theorem occursAt_succ_iff (t : List Char) (c : Char) (rest : List Char) (j : Nat) :
    occursAt t (c :: rest) (j + 1) ↔ occursAt t rest j := by
  simp [occursAt]

theorem not_occursAt_nil (t : List Char) (ht : t ≠ []) (i : Nat) : ¬ occursAt t [] i := by
  cases t with
  | nil => exact absurd rfl ht
  | cons a as => simp [occursAt, List.isPrefixOf]

theorem countOccGo_pos_iff (t : List Char) (ht : t ≠ []) :
    ∀ s : List Char, 0 < countOccGo t s 0 ↔ ∃ i, occursAt t s i
  | [] => by
    simp only [countOccGo]
    constructor
    · intro h
      exact absurd h (by omega)
    · rintro ⟨i, hi⟩
      exact absurd hi (not_occursAt_nil t ht i)
  | c :: rest => by
    by_cases hp : t.isPrefixOf (c :: rest)
    · simp only [countOccGo, hp, if_pos]
      exact ⟨fun _ => ⟨0, by simpa [occursAt] using hp⟩, fun _ => by omega⟩
    · simp only [countOccGo, hp, if_neg, Bool.false_eq_true, not_false_iff]
      rw [countOccGo_pos_iff t ht rest]
      constructor
      · rintro ⟨j, hj⟩
        exact ⟨j + 1, (occursAt_succ_iff t c rest j).mpr hj⟩
      · rintro ⟨i, hi⟩
        cases i with
        | zero => exact absurd hi (by simpa [occursAt] using hp)
        | succ j => exact ⟨j, (occursAt_succ_iff t c rest j).mp hi⟩

theorem countOcc_pos_iff (t s : List Char) :
    0 < countOcc t s ↔ ∃ i, occursAt t s i := by
  by_cases ht : t = []
  · subst ht
    constructor
    · intro _
      exact ⟨0, by simp [occursAt, List.isPrefixOf]⟩
    · intro _
      unfold countOcc
      simp
  · simpa only [countOcc, if_neg ht] using countOccGo_pos_iff t ht s

theorem findSub_nonneg_iff (t : List Char) :
    ∀ s : List Char, 0 ≤ findSub t s ↔ ∃ i, occursAt t s i
  | [] => by
    by_cases hp : t.isPrefixOf []
    · simp only [findSub, hp, if_pos]
      exact ⟨fun _ => ⟨0, by simpa [occursAt] using hp⟩, fun _ => le_refl 0⟩
    · simp only [findSub, hp, if_neg, Bool.false_eq_true, not_false_iff]
      constructor
      · omega
      · rintro ⟨i, hi⟩
        exact absurd hi (by simpa [occursAt] using hp)
  | c :: rest => by
    by_cases hp : t.isPrefixOf (c :: rest)
    · simp only [findSub, hp, if_pos]
      exact ⟨fun _ => ⟨0, by simpa [occursAt] using hp⟩, fun _ => le_refl 0⟩
    · have hrec := findSub_nonneg_iff t rest
      simp only [findSub, hp, if_neg, Bool.false_eq_true, not_false_iff]
      by_cases hr : findSub t rest < 0
      · simp only [hr, if_pos]
        constructor
        · omega
        · rintro ⟨i, hi⟩
          cases i with
          | zero => exact absurd hi (by simpa [occursAt] using hp)
          | succ j =>
            have : 0 ≤ findSub t rest := hrec.mpr ⟨j, (occursAt_succ_iff t c rest j).mp hi⟩
            omega
      · simp only [hr, if_neg, not_false_iff]
        constructor
        · intro _
          obtain ⟨j, hj⟩ := hrec.mp (by omega)
          exact ⟨j + 1, (occursAt_succ_iff t c rest j).mpr hj⟩
        · intro _
          omega

theorem findSub_occursAt (t : List Char) :
    ∀ s : List Char, 0 ≤ findSub t s → occursAt t s (findSub t s).toNat
  | [] => by
    by_cases hp : t.isPrefixOf []
    · intro _
      simp [findSub, hp, occursAt]
    · simp [findSub, hp]
  | c :: rest => by
    by_cases hp : t.isPrefixOf (c :: rest)
    · intro _
      simp [findSub, hp, occursAt]
    · by_cases hr : findSub t rest < 0
      · simp [findSub, hp, hr]
      · intro _
        have h0 : 0 ≤ findSub t rest := by omega
        have hocc := findSub_occursAt t rest h0
        have htn : (findSub t rest + 1).toNat = (findSub t rest).toNat + 1 := by omega
        simp only [findSub, hp, if_neg, Bool.false_eq_true, not_false_iff, hr, htn]
        exact (occursAt_succ_iff t c rest (findSub t rest).toNat).mpr hocc

theorem findSub_le_occursAt (t : List Char) :
    ∀ (s : List Char) (j : Nat), occursAt t s j → 0 ≤ findSub t s ∧ findSub t s ≤ (j : Int)
  | [], j => by
    intro hj
    have hpre : t.isPrefixOf [] := by simpa [occursAt] using hj
    simp only [findSub, hpre, if_pos]
    omega
  | c :: rest, j => by
    intro hj
    by_cases hp : t.isPrefixOf (c :: rest)
    · simp only [findSub, hp, if_pos]
      omega
    · cases j with
      | zero => exact absurd hj (by simpa [occursAt] using hp)
      | succ k =>
        have ih := findSub_le_occursAt t rest k ((occursAt_succ_iff t c rest k).mp hj)
        have hr : ¬ findSub t rest < 0 := by omega
        simp only [findSub, hp, if_neg, Bool.false_eq_true, not_false_iff, hr]
        omega

theorem foldl_min_choice : ∀ (l : List Int) (a : Int), l.foldl min a = a ∨ l.foldl min a ∈ l
  | [], a => Or.inl rfl
  | c :: rest, a => by
    rcases foldl_min_choice rest (min a c) with h | h
    · rcases min_cases a c with ⟨he, _⟩ | ⟨he, _⟩
      · exact Or.inl (by rw [List.foldl_cons, h, he])
      · exact Or.inr (by rw [List.foldl_cons, h, he]; exact List.mem_cons_self c rest)
    · exact Or.inr (List.mem_cons_of_mem c (by rw [List.foldl_cons]; exact h))

theorem foldl_min_le_init : ∀ (l : List Int) (a : Int), l.foldl min a ≤ a
  | [], a => le_refl a
  | c :: rest, a => by
    rw [List.foldl_cons]
    exact le_trans (foldl_min_le_init rest (min a c)) (min_le_left a c)

theorem foldl_min_le_mem : ∀ (l : List Int) (a b : Int), b ∈ l → l.foldl min a ≤ b
  | [], _, b => fun hb => absurd hb (List.not_mem_nil b)
  | c :: rest, a, b => by
    intro hb
    rw [List.foldl_cons]
    rcases List.mem_cons.mp hb with rfl | hb
    · exact le_trans (foldl_min_le_init rest (min a b)) (min_le_right a b)
    · exact foldl_min_le_mem rest (min a c) b hb

theorem firstPos_nonneg (tokens : List (List Char)) (txt : List Char)
    (h : ∃ t ∈ tokens, ∃ i, occursAt t txt i) : 0 ≤ firstPos tokens txt := by
  obtain ⟨t0, ht0, hocc0⟩ := h
  have hf0 : 0 ≤ findSub t0 txt := (findSub_nonneg_iff t0 txt).mpr hocc0
  have hmem : findSub t0 txt ∈
      (tokens.map (fun t => findSub t txt)).filter (fun p => decide (0 ≤ p)) :=
    List.mem_filter.mpr ⟨List.mem_map.mpr ⟨t0, ht0, rfl⟩, by simpa using hf0⟩
  unfold firstPos
  cases hps : (tokens.map (fun t => findSub t txt)).filter (fun p => decide (0 ≤ p)) with
  | nil => rw [hps] at hmem; exact absurd hmem (List.not_mem_nil _)
  | cons p rest =>
    show 0 ≤ List.foldl min p rest
    have hall : ∀ q ∈ p :: rest, 0 ≤ q := by
      intro q hq
      have := List.mem_filter.mp (hps ▸ hq)
      simpa using this.2
    rcases foldl_min_choice rest p with he | he
    · rw [he]; exact hall p (List.mem_cons_self p rest)
    · exact hall _ (List.mem_cons_of_mem p he)

theorem firstPos_mem (tokens : List (List Char)) (txt : List Char)
    (h : ∃ t ∈ tokens, ∃ i, occursAt t txt i) :
    ∃ t ∈ tokens, findSub t txt = firstPos tokens txt := by
  obtain ⟨t0, ht0, hocc0⟩ := h
  have hf0 : 0 ≤ findSub t0 txt := (findSub_nonneg_iff t0 txt).mpr hocc0
  have hmem : findSub t0 txt ∈
      (tokens.map (fun t => findSub t txt)).filter (fun p => decide (0 ≤ p)) :=
    List.mem_filter.mpr ⟨List.mem_map.mpr ⟨t0, ht0, rfl⟩, by simpa using hf0⟩
  unfold firstPos
  cases hps : (tokens.map (fun t => findSub t txt)).filter (fun p => decide (0 ≤ p)) with
  | nil => rw [hps] at hmem; exact absurd hmem (List.not_mem_nil _)
  | cons p rest =>
    show ∃ t ∈ tokens, findSub t txt = List.foldl min p rest
    have hin : rest.foldl min p ∈ p :: rest := by
      rcases foldl_min_choice rest p with he | he
      · rw [he]; exact List.mem_cons_self p rest
      · exact List.mem_cons_of_mem p he
    have : rest.foldl min p ∈
        (tokens.map (fun t => findSub t txt)).filter (fun p => decide (0 ≤ p)) := by
      rw [hps]; exact hin
    have := List.mem_map.mp (List.mem_filter.mp this).1
    obtain ⟨t, ht, hteq⟩ := this
    exact ⟨t, ht, hteq⟩

theorem firstPos_min (tokens : List (List Char)) (txt : List Char) :
    ∀ t ∈ tokens, ∀ j : Nat, occursAt t txt j → firstPos tokens txt ≤ (j : Int) := by
  intro t ht j hj
  obtain ⟨hge, hle⟩ := findSub_le_occursAt t txt j hj
  have hmem : findSub t txt ∈
      (tokens.map (fun t => findSub t txt)).filter (fun p => decide (0 ≤ p)) :=
    List.mem_filter.mpr ⟨List.mem_map.mpr ⟨t, ht, rfl⟩, by simpa using hge⟩
  unfold firstPos
  cases hps : (tokens.map (fun t => findSub t txt)).filter (fun p => decide (0 ≤ p)) with
  | nil => rw [hps] at hmem; exact absurd hmem (List.not_mem_nil _)
  | cons p rest =>
    show List.foldl min p rest ≤ (j : Int)
    rw [hps] at hmem
    rcases List.mem_cons.mp hmem with rfl | hmem
    · exact le_trans (foldl_min_le_init rest (findSub t txt)) hle
    · exact le_trans (foldl_min_le_mem rest p (findSub t txt) hmem) hle

theorem scoreDoc_pos_iff (tokens : List (List Char)) (d : Doc) :
    0 < scoreDoc tokens d ↔
      ∃ t ∈ tokens, ∃ i, occursAt t (d.text.map Char.toLower) i := by
  unfold scoreDoc
  constructor
  · intro hpos
    by_contra hno
    push_neg at hno
    have hz : (tokens.map (fun t => countOcc t (d.text.map Char.toLower))).sum = 0 := by
      apply List.sum_eq_zero
      intro x hx
      obtain ⟨t, ht, rfl⟩ := List.mem_map.mp hx
      by_contra hxne
      obtain ⟨i, hi⟩ := (countOcc_pos_iff t (d.text.map Char.toLower)).mp (by omega)
      exact hno t ht i hi
    omega
  · rintro ⟨t, ht, i, hi⟩
    have hpos : 0 < countOcc t (d.text.map Char.toLower) :=
      (countOcc_pos_iff t _).mpr ⟨i, hi⟩
    have hmem : countOcc t (d.text.map Char.toLower) ∈
        tokens.map (fun t => countOcc t (d.text.map Char.toLower)) :=
      List.mem_map.mpr ⟨t, ht, rfl⟩
    calc 0 < countOcc t (d.text.map Char.toLower) := hpos
      _ ≤ (tokens.map (fun t => countOcc t (d.text.map Char.toLower))).sum :=
        List.single_le_sum (fun x _ => Nat.zero_le x) _ hmem

/-! ### Lexical tier structure -/

theorem mkEntry_pos (tokens : List (List Char)) (d : Doc) (score : Nat)
    (hnn : 0 ≤ firstPos tokens (d.text.map Char.toLower)) :
    mkEntry tokens d score =
      ⟨score, d.file, d.page,
        ((d.text.drop (firstPos tokens (d.text.map Char.toLower)).toNat).take
          (min d.text.length ((firstPos tokens (d.text.map Char.toLower)).toNat + 300) -
            (firstPos tokens (d.text.map Char.toLower)).toNat)).map nlToSpace,
        (firstPos tokens (d.text.map Char.toLower)).toNat,
        min d.text.length ((firstPos tokens (d.text.map Char.toLower)).toNat + 300)⟩ := by
  simp only [mkEntry, if_pos hnn, max_eq_right hnn]

theorem mem_scoredList {tokens : List (List Char)} {index : List Doc} {e : ScoredEntry} :
    e ∈ scoredList tokens index ↔
      ∃ d ∈ index, 0 < scoreDoc tokens d ∧ e = mkEntry tokens d (scoreDoc tokens d) := by
  unfold scoredList
  rw [List.mem_filterMap]
  constructor
  · rintro ⟨d, hd, hfd⟩
    by_cases hp : 0 < scoreDoc tokens d
    · simp only [hp, if_pos] at hfd
      exact ⟨d, hd, hp, (Option.some_inj.mp hfd).symm⟩
    · simp only [hp, if_neg, not_false_iff] at hfd
      exact absurd hfd (by simp)
  · rintro ⟨d, hd, hp, rfl⟩
    exact ⟨d, hd, by simp only [hp, if_pos]⟩

theorem mem_pySortDesc {l : List ScoredEntry} {e : ScoredEntry} :
    e ∈ pySortDesc l ↔ e ∈ l := by
  unfold pySortDesc
  rw [((List.perm_insertionSort keyLE l.enum).map Prod.snd).mem_iff, List.enum_map_snd]

theorem scoredList_eq_filter (tokens : List (List Char)) (index : List Doc) :
    scoredList tokens index =
      (index.filter (fun d => decide (0 < scoreDoc tokens d))).map
        (fun d => mkEntry tokens d (scoreDoc tokens d)) := by
  induction index with
  | nil => rfl
  | cons d rest ih =>
    unfold scoredList at ih ⊢
    rw [List.filterMap_cons, List.filter_cons]
    by_cases hp : 0 < scoreDoc tokens d
    · simp [hp, ih]
    · simp [hp, ih]

theorem scoredList_nil_of_all_zero {tokens : List (List Char)} {index : List Doc}
    (h : ∀ d ∈ index, scoreDoc tokens d = 0) : scoredList tokens index = [] := by
  unfold scoredList
  rw [List.filterMap_eq_nil_iff]
  intro d hd
  rw [if_neg (by simp [h d hd])]

/-- Peeling the guards of `search_pdfs`: a present result is exactly the
`top_k` prefix of the stable-sorted scored list, and the guards did not
fire. -/
theorem search_pdfs_some {index : List Doc} {q : List Char} {k : Int}
    {res : List ScoredEntry} (h : search_pdfs index q k = some res) :
    res = (pySortDesc (scoredList (tokenize_query (pyStrip q)) index)).take k.toNat ∧
    pyStrip q ≠ [] ∧ 0 < k ∧ scoredList (tokenize_query (pyStrip q)) index ≠ [] := by
  simp only [search_pdfs] at h
  split at h
  next hq => exact absurd h (by simp)
  next hq =>
    split at h
    next hk => exact absurd h (by simp)
    next hk =>
      split at h
      next hidx => exact absurd h (by simp)
      next hidx =>
        split at h
        next ht => exact absurd h (by simp)
        next ht =>
          split at h
          next hs => exact absurd h (by simp)
          next hs =>
            refine ⟨(Option.some_inj.mp h).symm, ?_, by omega, hs⟩
            intro hstrip
            exact hq (Or.inr hstrip)

/-- C7: a query that is empty after stripping, a non-positive `top_k`,
or a corpus where every page scores zero for the query's tokens, each
make `search_pdfs` return the absent result (`None`), never an
empty-but-present one. -/
theorem search_absent_cases (index : List Doc) (q : List Char) (k : Int)
    (h : pyStrip q = [] ∨ k ≤ 0 ∨
      ∀ d ∈ index, scoreDoc (tokenize_query (pyStrip q)) d = 0) :
    search_pdfs index q k = none := by
  simp only [search_pdfs]
  rcases h with h | h | h
  · rw [if_pos (Or.inr h)]
  · by_cases hq : q = [] ∨ pyStrip q = []
    · rw [if_pos hq]
    · rw [if_neg hq, if_pos h]
  · by_cases hq : q = [] ∨ pyStrip q = []
    · rw [if_pos hq]
    · rw [if_neg hq]
      by_cases hk : k ≤ 0
      · rw [if_pos hk]
      · rw [if_neg hk]
        by_cases hidx : index = []
        · rw [if_pos hidx]
        · rw [if_neg hidx]
          by_cases ht : tokenize_query (pyStrip q) = []
          · rw [if_pos ht]
          · rw [if_neg ht, if_pos (scoredList_nil_of_all_zero h)]

/-- Witness for C7: a whitespace-only query is answered with the absent
result. -/
theorem search_absent_cases_witness :
    (pyStrip (String.toList " ") = [] ∨ (3 : Int) ≤ 0 ∨
      ∀ d ∈ ([] : List Doc),
        scoreDoc (tokenize_query (pyStrip (String.toList " "))) d = 0) ∧
    search_pdfs [] (String.toList " ") 3 = none :=
  ⟨Or.inl (by decide), search_absent_cases [] (String.toList " ") 3 (Or.inl (by decide))⟩

/-- C10: in the lexical tier, a page with a positive score contains an
occurrence of at least one query token in its lowercased text, so the
earliest-position search returns a non-negative offset; consequently the
scored entry built for that page takes the found-position branch: its
window starts at the earliest found token position and its end is
`min(page length, start + 300)` — the 200-character fallback is
unreachable for scored pages. -/
theorem positive_score_has_position (tokens : List (List Char)) (d : Doc)
    (hpos : 0 < scoreDoc tokens d) :
    (∃ t ∈ tokens, ∃ i, occursAt t (d.text.map Char.toLower) i) ∧
    0 ≤ firstPos tokens (d.text.map Char.toLower) ∧
    (∃ t ∈ tokens, occursAt t (d.text.map Char.toLower)
      (firstPos tokens (d.text.map Char.toLower)).toNat) ∧
    (mkEntry tokens d (scoreDoc tokens d)).startOff =
      (firstPos tokens (d.text.map Char.toLower)).toNat ∧
    (mkEntry tokens d (scoreDoc tokens d)).endOff =
      min d.text.length ((mkEntry tokens d (scoreDoc tokens d)).startOff + 300) := by
  have hocc := (scoreDoc_pos_iff tokens d).mp hpos
  have hnn := firstPos_nonneg _ _ hocc
  refine ⟨hocc, hnn, ?_, ?_, ?_⟩
  · obtain ⟨t, ht, heq⟩ := firstPos_mem _ _ hocc
    refine ⟨t, ht, ?_⟩
    rw [← heq]
    exact findSub_occursAt t _ (heq ▸ hnn)
  · rw [mkEntry_pos tokens d _ hnn]
  · rw [mkEntry_pos tokens d _ hnn]

/-- Witness for C10 on a one-page corpus scoring the token `law`. -/
theorem positive_score_has_position_witness :
    0 < scoreDoc [String.toList "law"] ⟨"a.pdf", 1, String.toList "ab law cd"⟩ ∧
    ((∃ t ∈ [String.toList "law"], ∃ i,
        occursAt t ((⟨"a.pdf", 1, String.toList "ab law cd"⟩ : Doc).text.map Char.toLower) i) ∧
      0 ≤ firstPos [String.toList "law"]
        ((⟨"a.pdf", 1, String.toList "ab law cd"⟩ : Doc).text.map Char.toLower) ∧
      (∃ t ∈ [String.toList "law"],
        occursAt t ((⟨"a.pdf", 1, String.toList "ab law cd"⟩ : Doc).text.map Char.toLower)
          (firstPos [String.toList "law"]
            ((⟨"a.pdf", 1, String.toList "ab law cd"⟩ : Doc).text.map Char.toLower)).toNat) ∧
      (mkEntry [String.toList "law"] ⟨"a.pdf", 1, String.toList "ab law cd"⟩
          (scoreDoc [String.toList "law"] ⟨"a.pdf", 1, String.toList "ab law cd"⟩)).startOff =
        (firstPos [String.toList "law"]
          ((⟨"a.pdf", 1, String.toList "ab law cd"⟩ : Doc).text.map Char.toLower)).toNat ∧
      (mkEntry [String.toList "law"] ⟨"a.pdf", 1, String.toList "ab law cd"⟩
          (scoreDoc [String.toList "law"] ⟨"a.pdf", 1, String.toList "ab law cd"⟩)).endOff =
        min (⟨"a.pdf", 1, String.toList "ab law cd"⟩ : Doc).text.length
          ((mkEntry [String.toList "law"] ⟨"a.pdf", 1, String.toList "ab law cd"⟩
            (scoreDoc [String.toList "law"] ⟨"a.pdf", 1, String.toList "ab law cd"⟩)).startOff
              + 300)) :=
  ⟨by decide, positive_score_has_position [String.toList "law"]
    ⟨"a.pdf", 1, String.toList "ab law cd"⟩ (by decide)⟩

/-- C2: every page returned by the lexical tier reports a start offset
that is the earliest character offset at which any query token occurs in
the (lowercased) page text, an end offset `min(page length, start + 300)`
— with the `start = 0`, `end = min(page length, 200)` fallback reserved
for the no-position case — and a snippet equal to the literal slice
`page_text[start:end]` up to the newline-to-space normalization. -/
theorem snippet_offsets_spec (index : List Doc) (q : List Char) (k : Int)
    (res : List ScoredEntry) (h : search_pdfs index q k = some res) :
    ∀ e ∈ res, ∃ d ∈ index,
      e.score = scoreDoc (tokenize_query (pyStrip q)) d ∧
      e.file = d.file ∧ e.page = d.page ∧
      e.snippet = ((d.text.drop e.startOff).take (e.endOff - e.startOff)).map nlToSpace ∧
      (((∃ t ∈ tokenize_query (pyStrip q), occursAt t (d.text.map Char.toLower) e.startOff) ∧
        (∀ t ∈ tokenize_query (pyStrip q), ∀ j, occursAt t (d.text.map Char.toLower) j →
          e.startOff ≤ j) ∧
        e.endOff = min d.text.length (e.startOff + 300)) ∨
       (e.startOff = 0 ∧ e.endOff = min d.text.length 200)) := by
  obtain ⟨hres, hq, hk, hs⟩ := search_pdfs_some h
  intro e he
  rw [hres] at he
  have he2 : e ∈ pySortDesc (scoredList (tokenize_query (pyStrip q)) index) :=
    List.mem_of_mem_take he
  obtain ⟨d, hd, hpos, rfl⟩ := mem_scoredList.mp (mem_pySortDesc.mp he2)
  have hocc := (scoreDoc_pos_iff _ d).mp hpos
  have hnn := firstPos_nonneg _ _ hocc
  rw [mkEntry_pos _ d _ hnn]
  refine ⟨d, hd, rfl, rfl, rfl, rfl, Or.inl ⟨?_, ?_, rfl⟩⟩
  · show ∃ t ∈ tokenize_query (pyStrip q),
      occursAt t (d.text.map Char.toLower)
        (firstPos (tokenize_query (pyStrip q)) (d.text.map Char.toLower)).toNat
    obtain ⟨t, ht, heq⟩ := firstPos_mem _ _ hocc
    refine ⟨t, ht, ?_⟩
    rw [← heq]
    exact findSub_occursAt t _ (heq ▸ hnn)
  · intro t ht j hj
    have hle := firstPos_min (tokenize_query (pyStrip q)) (d.text.map Char.toLower) t ht j hj
    show (firstPos (tokenize_query (pyStrip q)) (d.text.map Char.toLower)).toNat ≤ j
    omega

/-- Witness for C2 on a one-page corpus: the query `law` yields the
snippet window `[3, 9)` of `"ab law cd"`. -/
theorem snippet_offsets_spec_witness :
    search_pdfs [⟨"a.pdf", 1, String.toList "ab law cd"⟩] (String.toList "law") 3 =
      some [⟨1, "a.pdf", 1, String.toList "law cd", 3, 9⟩] ∧
    (∀ e ∈ [(⟨1, "a.pdf", 1, String.toList "law cd", 3, 9⟩ : ScoredEntry)],
      ∃ d ∈ [(⟨"a.pdf", 1, String.toList "ab law cd"⟩ : Doc)],
        e.score = scoreDoc (tokenize_query (pyStrip (String.toList "law"))) d ∧
        e.file = d.file ∧ e.page = d.page ∧
        e.snippet = ((d.text.drop e.startOff).take (e.endOff - e.startOff)).map nlToSpace ∧
        (((∃ t ∈ tokenize_query (pyStrip (String.toList "law")),
            occursAt t (d.text.map Char.toLower) e.startOff) ∧
          (∀ t ∈ tokenize_query (pyStrip (String.toList "law")), ∀ j,
            occursAt t (d.text.map Char.toLower) j → e.startOff ≤ j) ∧
          e.endOff = min d.text.length (e.startOff + 300)) ∨
         (e.startOff = 0 ∧ e.endOff = min d.text.length 200))) :=
  ⟨by decide, snippet_offsets_spec [⟨"a.pdf", 1, String.toList "ab law cd"⟩]
    (String.toList "law") 3 [⟨1, "a.pdf", 1, String.toList "law cd", 3, 9⟩] (by decide)⟩

/-- C1: for a query with at least one token and a positive `top_k`, the
lexical tier of `search_pdfs` keeps exactly the pages with a positive
score (the score being the sum over tokens of occurrence counts in the
lowercased page text, as recorded by `scoreDoc`/`mkEntry`), sorts them
by descending score with ties in original index order (a stable sort,
witnessed by the sorted index-annotated permutation `ann`), and returns
at most `top_k` of them. -/
theorem lexical_tier_spec (index : List Doc) (q : List Char) (k : Int)
    (hq : pyStrip q ≠ []) (hk : 0 < k)
    (hs : scoredList (tokenize_query (pyStrip q)) index ≠ []) :
    ∃ ann : List (Nat × ScoredEntry),
      search_pdfs index q k = some ((ann.map Prod.snd).take k.toNat) ∧
      ann.Perm (scoredList (tokenize_query (pyStrip q)) index).enum ∧
      ann.Pairwise (fun a b => b.2.score ≤ a.2.score ∧
        (a.2.score = b.2.score → a.1 ≤ b.1)) ∧
      ((ann.map Prod.snd).take k.toNat).length ≤ k.toNat ∧
      scoredList (tokenize_query (pyStrip q)) index =
        (index.filter (fun d => decide (0 < scoreDoc (tokenize_query (pyStrip q)) d))).map
          (fun d => mkEntry (tokenize_query (pyStrip q)) d
            (scoreDoc (tokenize_query (pyStrip q)) d)) := by
  refine ⟨(scoredList (tokenize_query (pyStrip q)) index).enum.insertionSort keyLE,
    ?_, List.perm_insertionSort keyLE _, ?_, ?_, scoredList_eq_filter _ _⟩
  · have hq2 : ¬ (q = [] ∨ pyStrip q = []) := by
      rintro (rfl | hh)
      · exact hq rfl
      · exact hq hh
    have hidx : index ≠ [] := by
      intro hi
      rw [hi] at hs
      exact hs rfl
    have ht : tokenize_query (pyStrip q) ≠ [] := by
      intro htq
      apply hs
      apply scoredList_nil_of_all_zero
      intro d _
      rw [htq]
      rfl
    simp only [search_pdfs]
    rw [if_neg hq2, if_neg (show ¬ k ≤ 0 by omega), if_neg hidx, if_neg ht, if_neg hs]
    rfl
  · refine (List.sorted_insertionSort keyLE _).imp ?_
    intro a b hab
    unfold keyLE at hab
    omega
  · exact le_trans (le_of_eq (List.length_take _ _)) (min_le_left _ _)

/-- Witness for C1 on a two-page corpus tied at score 1: the stable sort
keeps the original page order. -/
theorem lexical_tier_spec_witness :
    pyStrip (String.toList "law") ≠ [] ∧ (0 : Int) < 3 ∧
    scoredList (tokenize_query (pyStrip (String.toList "law")))
      [⟨"a.pdf", 1, String.toList "law x"⟩, ⟨"b.pdf", 2, String.toList "y law"⟩] ≠ [] ∧
    (∃ ann : List (Nat × ScoredEntry),
      search_pdfs [⟨"a.pdf", 1, String.toList "law x"⟩, ⟨"b.pdf", 2, String.toList "y law"⟩]
          (String.toList "law") 3 = some ((ann.map Prod.snd).take (3 : Int).toNat) ∧
      ann.Perm (scoredList (tokenize_query (pyStrip (String.toList "law")))
        [⟨"a.pdf", 1, String.toList "law x"⟩, ⟨"b.pdf", 2, String.toList "y law"⟩]).enum ∧
      ann.Pairwise (fun a b => b.2.score ≤ a.2.score ∧
        (a.2.score = b.2.score → a.1 ≤ b.1)) ∧
      ((ann.map Prod.snd).take (3 : Int).toNat).length ≤ (3 : Int).toNat ∧
      scoredList (tokenize_query (pyStrip (String.toList "law")))
          [⟨"a.pdf", 1, String.toList "law x"⟩, ⟨"b.pdf", 2, String.toList "y law"⟩] =
        (([⟨"a.pdf", 1, String.toList "law x"⟩,
            ⟨"b.pdf", 2, String.toList "y law"⟩] : List Doc).filter
          (fun d => decide (0 < scoreDoc (tokenize_query (pyStrip (String.toList "law"))) d))).map
          (fun d => mkEntry (tokenize_query (pyStrip (String.toList "law"))) d
            (scoreDoc (tokenize_query (pyStrip (String.toList "law"))) d))) :=
  ⟨by decide, by decide, by decide,
    lexical_tier_spec [⟨"a.pdf", 1, String.toList "law x"⟩, ⟨"b.pdf", 2, String.toList "y law"⟩]
      (String.toList "law") 3 (by decide) (by decide) (by decide)⟩

/-! ### Simple ingestion claims -/

/-- C8: when the PDF-parsing capability is unavailable, `index_pdfs`
returns the failure boolean and the whole engine state — page index,
embedding index, diagnostics and persisted cache — is exactly what it
was before the call. -/
theorem ingest_no_plumber (files : List PdfFile) (st : EngineState) :
    index_pdfs false files st = (false, st) := rfl

/-- C6: ingesting a directory with zero PDF files succeeds (returns
`true`), empties the page index, overwrites the persisted cache with an
empty mapping, counts every entry of the previously loaded cache as
deleted, and reports no processed or reused files. -/
theorem ingest_empty_dir (st : EngineState) :
    (index_pdfs true [] st).1 = true ∧
    ((index_pdfs true [] st).2).index = [] ∧
    ((index_pdfs true [] st).2).diskCache = [] ∧
    ((index_pdfs true [] st).2).stats.deleted_files = st.diskCache.length ∧
    ((index_pdfs true [] st).2).stats.processed_files = 0 ∧
    ((index_pdfs true [] st).2).stats.reused_files = 0 :=
  ⟨rfl, rfl, rfl, rfl, rfl, rfl⟩

/-- C9: after any ingestion pass the diagnostics read returns the
snapshot with its four counters, `total_docs` equals the number of page
records in the current page index, and the read leaves the engine state
unchanged.  The count invariant is carried through failed passes by the
hypothesis that it held beforehand (it holds of the initial state and
is established afresh by every successful pass). -/
theorem diagnostics_snapshot (plumber : Bool) (files : List PdfFile) (st : EngineState)
    (hinv : st.stats.total_docs = st.index.length) :
    get_index_diagnostics ((index_pdfs plumber files st).2) =
      (((index_pdfs plumber files st).2).stats, (index_pdfs plumber files st).2) ∧
    ((index_pdfs plumber files st).2).stats.total_docs =
      ((index_pdfs plumber files st).2).index.length := by
  refine ⟨rfl, ?_⟩
  unfold index_pdfs
  cases plumber with
  | false => simpa using hinv
  | true =>
    by_cases hf : files = [] <;> simp [hf]

/-- Witness for C9 at the initial engine state. -/
theorem diagnostics_snapshot_witness :
    (⟨[], false, [], ⟨0, 0, 0, 0⟩, []⟩ : EngineState).stats.total_docs =
      (⟨[], false, [], ⟨0, 0, 0, 0⟩, []⟩ : EngineState).index.length ∧
    (get_index_diagnostics ((index_pdfs true [] ⟨[], false, [], ⟨0, 0, 0, 0⟩, []⟩).2) =
      (((index_pdfs true [] ⟨[], false, [], ⟨0, 0, 0, 0⟩, []⟩).2).stats,
        (index_pdfs true [] ⟨[], false, [], ⟨0, 0, 0, 0⟩, []⟩).2) ∧
    ((index_pdfs true [] ⟨[], false, [], ⟨0, 0, 0, 0⟩, []⟩).2).stats.total_docs =
      ((index_pdfs true [] ⟨[], false, [], ⟨0, 0, 0, 0⟩, []⟩).2).index.length) :=
  ⟨rfl, diagnostics_snapshot true [] ⟨[], false, [], ⟨0, 0, 0, 0⟩, []⟩ rfl⟩

/-- C3 counterexample: a single file whose extraction raises, ingested
over an empty cache.  The claim says such a file is counted in neither
`processed_files` nor `reused_files`, but the code increments
`processed_files` before entering the `try` block, so the pass reports
`processed_files = 1`, not `0`. -/
theorem extract_error_counted_processed_cex :
    ¬ ((index_pdfs true [⟨"/d/a.pdf", "a.pdf", some "h1", [], true⟩]
        ⟨[], false, [], ⟨0, 0, 0, 0⟩, []⟩).2).stats.processed_files = 0 := by decide

/-- C4 counterexample: cache holds one entry for `/d/a.pdf`; the
directory now holds only the renamed file `/d/b.pdf`, which processes
successfully.  The claim (and spec) demand `deleted_files = 1` for a
rename, but the code computes
`max(0, len(cached_files) - len(new_cache))` `= max(0, 1 - 1) = 0`. -/
theorem deleted_files_rename_cex :
    ¬ ((index_pdfs true [⟨"/d/b.pdf", "b.pdf", some "hb", [String.toList "text"], false⟩]
        ⟨[], false, [], ⟨0, 0, 0, 0⟩,
          [("/d/a.pdf", ⟨"ha", []⟩)]⟩).2).stats.deleted_files = 1 := by decide

/-- C5 counterexample: a directory containing one unchanged PDF whose
extraction deterministically raises (e.g. a corrupt file).  Both
ingestion passes succeed (return `true`), yet the second pass reports
`processed_files = 1` instead of the claimed `0`: the failing file got
no cache entry in the first pass, so it is reprocessed. -/
theorem reingest_unchanged_cex :
    (index_pdfs true [⟨"/d/a.pdf", "a.pdf", some "h1", [], true⟩]
        ⟨[], false, [], ⟨0, 0, 0, 0⟩, []⟩).1 = true ∧
    (index_pdfs true [⟨"/d/a.pdf", "a.pdf", some "h1", [], true⟩]
        (index_pdfs true [⟨"/d/a.pdf", "a.pdf", some "h1", [], true⟩]
          ⟨[], false, [], ⟨0, 0, 0, 0⟩, []⟩).2).1 = true ∧
    ¬ ((index_pdfs true [⟨"/d/a.pdf", "a.pdf", some "h1", [], true⟩]
        (index_pdfs true [⟨"/d/a.pdf", "a.pdf", some "h1", [], true⟩]
          ⟨[], false, [], ⟨0, 0, 0, 0⟩, []⟩).2).2).stats.processed_files = 0 := by
  refine ⟨rfl, rfl, by decide⟩

/-! ### Structure of the per-file ingestion loop -/

theorem stepFile_processed (cached : List (String × CacheEntry)) (f : PdfFile) (acc : PassAcc) :
    (stepFile cached f acc).processed =
      acc.processed + (if isReused cached f then 0 else 1) := by
  unfold stepFile isReused extractStep
  cases f.hashRes with
  | none => simp
  | some h =>
    cases List.lookup f.path cached with
    | none => by_cases he : f.extractErr = true <;> simp [he]
    | some e =>
      by_cases hh : e.hash = h
      · simp [hh]
      · by_cases he : f.extractErr = true <;> simp [hh, he]

theorem stepFile_reused (cached : List (String × CacheEntry)) (f : PdfFile) (acc : PassAcc) :
    (stepFile cached f acc).reused =
      acc.reused + (if isReused cached f then 1 else 0) := by
  unfold stepFile isReused extractStep
  cases f.hashRes with
  | none => simp
  | some h =>
    cases List.lookup f.path cached with
    | none => by_cases he : f.extractErr = true <;> simp [he]
    | some e =>
      by_cases hh : e.hash = h
      · simp [hh]
      · by_cases he : f.extractErr = true <;> simp [hh, he]

theorem stepFile_newFiles (cached : List (String × CacheEntry)) (f : PdfFile) (acc : PassAcc) :
    (stepFile cached f acc).newFiles =
      if isReused cached f || (f.hashRes.isSome && !f.extractErr)
      then (f.path, stepEntry cached f) :: acc.newFiles
      else acc.newFiles := by
  unfold stepFile isReused stepEntry extractStep
  cases f.hashRes with
  | none => simp
  | some h =>
    cases List.lookup f.path cached with
    | none =>
      by_cases he : f.extractErr = true
      · simp [he]
      · simp [he, eq_false_of_ne_true he]
    | some e =>
      by_cases hh : e.hash = h
      · simp [hh]
      · by_cases he : f.extractErr = true
        · simp [hh, he]
        · simp [hh, he, eq_false_of_ne_true he]

theorem stepFile_docs (cached : List (String × CacheEntry)) (f : PdfFile) (acc : PassAcc) :
    (stepFile cached f acc).docs = docsOf cached f ++ acc.docs := by
  unfold stepFile docsOf extractStep
  cases f.hashRes with
  | none => simp
  | some h =>
    cases List.lookup f.path cached with
    | none => by_cases he : f.extractErr = true <;> simp [he]
    | some e =>
      by_cases hh : e.hash = h
      · simp [hh]
      · by_cases he : f.extractErr = true <;> simp [hh, he]

theorem processFiles_processed (cached : List (String × CacheEntry)) :
    ∀ files : List PdfFile,
      (processFiles cached files).processed =
        (files.filter (fun f => !(isReused cached f))).length
  | [] => rfl
  | f :: rest => by
    show (stepFile cached f (processFiles cached rest)).processed = _
    rw [stepFile_processed, processFiles_processed cached rest, List.filter_cons]
    by_cases hr : isReused cached f
    · simp [hr]
    · simp [hr]

theorem processFiles_reused (cached : List (String × CacheEntry)) :
    ∀ files : List PdfFile,
      (processFiles cached files).reused =
        (files.filter (fun f => isReused cached f)).length
  | [] => rfl
  | f :: rest => by
    show (stepFile cached f (processFiles cached rest)).reused = _
    rw [stepFile_reused, processFiles_reused cached rest, List.filter_cons]
    by_cases hr : isReused cached f
    · simp [hr]
    · simp [hr]

theorem processFiles_newFiles (cached : List (String × CacheEntry)) :
    ∀ files : List PdfFile,
      (processFiles cached files).newFiles =
        (files.filter (fun f =>
          isReused cached f || (f.hashRes.isSome && !f.extractErr))).map
          (fun f => (f.path, stepEntry cached f))
  | [] => rfl
  | f :: rest => by
    show (stepFile cached f (processFiles cached rest)).newFiles = _
    rw [stepFile_newFiles, processFiles_newFiles cached rest, List.filter_cons]
    by_cases hc : (isReused cached f || (f.hashRes.isSome && !f.extractErr)) = true
    · simp [hc]
    · simp [hc]

theorem processFiles_docs (cached : List (String × CacheEntry)) :
    ∀ files : List PdfFile,
      (processFiles cached files).docs = (files.map (docsOf cached)).flatten
  | [] => rfl
  | f :: rest => by
    show (stepFile cached f (processFiles cached rest)).docs = _
    rw [stepFile_docs, processFiles_docs cached rest]
    simp

theorem stepEntry_hash (cached : List (String × CacheEntry)) (f : PdfFile) (h : String)
    (hh : f.hashRes = some h) : (stepEntry cached f).hash = h := by
  unfold stepEntry
  rw [hh]
  cases List.lookup f.path cached with
  | none => rfl
  | some e =>
    by_cases he : e.hash = h
    · simp [he]
    · simp [he]

theorem docsOf_stepEntry (cached : List (String × CacheEntry)) (f : PdfFile)
    (hh : f.hashRes.isSome = true) : docsOf cached f = (stepEntry cached f).docs := by
  obtain ⟨h, hh2⟩ := Option.isSome_iff_exists.mp hh
  unfold docsOf stepEntry
  rw [hh2]
  cases List.lookup f.path cached with
  | none => rfl
  | some e =>
    by_cases he : e.hash = h
    · simp [he]
    · simp [he]

theorem lookup_map_self (ent : PdfFile → CacheEntry) :
    ∀ (files : List PdfFile) (g : PdfFile),
      (files.map (fun f => f.path)).Nodup → g ∈ files →
      List.lookup g.path (files.map (fun f => (f.path, ent f))) = some (ent g)
  | [], g => by
    intro _ hg
    exact absurd hg (List.not_mem_nil g)
  | f0 :: rest, g => by
    intro hnd hg
    rw [List.map_cons] at hnd
    have hnd2 := List.nodup_cons.mp hnd
    simp only [List.map_cons, List.lookup]
    rcases List.mem_cons.mp hg with rfl | hg2
    · simp
    · have hne : g.path ≠ f0.path := by
        intro he
        exact hnd2.1 (he ▸ List.mem_map_of_mem (fun f => f.path) hg2)
      rw [beq_eq_false_iff_ne.mpr hne]
      exact lookup_map_self ent rest g hnd2.2 hg2

/-- The engine state produced by a successful pass in which every file
hashes and extracts cleanly: the new cache holds one entry per file in
file order, and the index is the concatenation of the per-file page
records. -/
theorem docsOf_eq_of_match (cached : List (String × CacheEntry)) (f : PdfFile)
    (h : String) (e : CacheEntry) (hh : f.hashRes = some h)
    (hlk : List.lookup f.path cached = some e) (hhash : e.hash = h) :
    docsOf cached f = e.docs := by
  unfold docsOf
  rw [hh]
  cases hlk2 : List.lookup f.path cached with
  | none =>
    rw [hlk2] at hlk
    exact absurd hlk (by simp)
  | some e2 =>
    rw [hlk2] at hlk
    have he2 : e2 = e := by injection hlk
    subst he2
    simp [hhash]

theorem pass_allgood_state (st : EngineState) (files : List PdfFile) (hne : files ≠ [])
    (hok : ∀ f ∈ files, f.hashRes.isSome = true ∧ f.extractErr = false) :
    (index_pdfs true files st).2.diskCache =
      files.map (fun g => (g.path, stepEntry st.diskCache g)) ∧
    (index_pdfs true files st).2.index = (files.map (docsOf st.diskCache)).flatten := by
  have hcond : ∀ f ∈ files,
      (isReused st.diskCache f || (f.hashRes.isSome && !f.extractErr)) = true := by
    intro f hf
    obtain ⟨hh, he⟩ := hok f hf
    simp [hh, he]
  constructor
  · have : (processFiles st.diskCache files).newFiles =
        files.map (fun g => (g.path, stepEntry st.diskCache g)) := by
      rw [processFiles_newFiles, List.filter_eq_self.mpr hcond]
    simp [index_pdfs, hne, this]
  · have := processFiles_docs st.diskCache files
    simp [index_pdfs, hne, this]

/-- C3 amended: a file whose page extraction raises is skipped without
aborting the pass (which still returns `true`) and gets no entry in the
newly persisted cache, but it IS counted in `processed_files` (which
counts every non-reused file, failing ones included) and not in
`reused_files`. -/
theorem extract_error_skip_amended (st : EngineState) (files : List PdfFile) (f : PdfFile)
    (hmem : f ∈ files)
    (hnd : (files.map (fun g => g.path)).Nodup)
    (herr : f.extractErr = true)
    (hnr : isReused st.diskCache f = false) :
    (index_pdfs true files st).1 = true ∧
    ((index_pdfs true files st).2).stats.processed_files =
      (files.filter (fun g => !(isReused st.diskCache g))).length ∧
    0 < ((index_pdfs true files st).2).stats.processed_files ∧
    ((index_pdfs true files st).2).stats.reused_files =
      (files.filter (fun g => isReused st.diskCache g)).length ∧
    f.path ∉ ((index_pdfs true files st).2).diskCache.map Prod.fst := by
  have hne : files ≠ [] := List.ne_nil_of_mem hmem
  have hproc : ((index_pdfs true files st).2).stats.processed_files =
      (files.filter (fun g => !(isReused st.diskCache g))).length := by
    have := processFiles_processed st.diskCache files
    simp [index_pdfs, hne, this]
  refine ⟨by simp [index_pdfs, hne], hproc, ?_, ?_, ?_⟩
  · rw [hproc]
    exact List.length_pos_of_mem
      (List.mem_filter.mpr ⟨hmem, by simp [hnr]⟩)
  · have := processFiles_reused st.diskCache files
    simp [index_pdfs, hne, this]
  · have hkeys : ((index_pdfs true files st).2).diskCache =
        (files.filter (fun g =>
          isReused st.diskCache g || (g.hashRes.isSome && !g.extractErr))).map
          (fun g => (g.path, stepEntry st.diskCache g)) := by
      have := processFiles_newFiles st.diskCache files
      simp [index_pdfs, hne, this]
    rw [hkeys, List.map_map]
    intro hbad
    obtain ⟨g, hgf, hgeq⟩ := List.mem_map.mp hbad
    have hgfiles := List.mem_of_mem_filter hgf
    have hgcond := List.of_mem_filter hgf
    have hgpath : g.path = f.path := hgeq
    have : g = f :=
      List.inj_on_of_nodup_map hnd hgfiles hmem hgpath
    rw [this, hnr, herr] at hgcond
    simp at hgcond

/-- Witness for C3 amended: one healthy file plus one corrupt file. -/
theorem extract_error_skip_amended_witness :
    (⟨"/d/b.pdf", "b.pdf", some "hb", [], true⟩ : PdfFile) ∈
      [(⟨"/d/a.pdf", "a.pdf", some "ha", [String.toList "alpha"], false⟩ : PdfFile),
       ⟨"/d/b.pdf", "b.pdf", some "hb", [], true⟩] ∧
    (([(⟨"/d/a.pdf", "a.pdf", some "ha", [String.toList "alpha"], false⟩ : PdfFile),
       ⟨"/d/b.pdf", "b.pdf", some "hb", [], true⟩]).map (fun g => g.path)).Nodup ∧
    (⟨"/d/b.pdf", "b.pdf", some "hb", [], true⟩ : PdfFile).extractErr = true ∧
    isReused ([] : List (String × CacheEntry)) ⟨"/d/b.pdf", "b.pdf", some "hb", [], true⟩
      = false ∧
    ((index_pdfs true
        [⟨"/d/a.pdf", "a.pdf", some "ha", [String.toList "alpha"], false⟩,
         ⟨"/d/b.pdf", "b.pdf", some "hb", [], true⟩]
        ⟨[], false, [], ⟨0, 0, 0, 0⟩, []⟩).1 = true ∧
      ((index_pdfs true
        [⟨"/d/a.pdf", "a.pdf", some "ha", [String.toList "alpha"], false⟩,
         ⟨"/d/b.pdf", "b.pdf", some "hb", [], true⟩]
        ⟨[], false, [], ⟨0, 0, 0, 0⟩, []⟩).2).stats.processed_files =
        (([(⟨"/d/a.pdf", "a.pdf", some "ha", [String.toList "alpha"], false⟩ : PdfFile),
           ⟨"/d/b.pdf", "b.pdf", some "hb", [], true⟩]).filter
          (fun g => !(isReused ([] : List (String × CacheEntry)) g))).length ∧
      0 < ((index_pdfs true
        [⟨"/d/a.pdf", "a.pdf", some "ha", [String.toList "alpha"], false⟩,
         ⟨"/d/b.pdf", "b.pdf", some "hb", [], true⟩]
        ⟨[], false, [], ⟨0, 0, 0, 0⟩, []⟩).2).stats.processed_files ∧
      ((index_pdfs true
        [⟨"/d/a.pdf", "a.pdf", some "ha", [String.toList "alpha"], false⟩,
         ⟨"/d/b.pdf", "b.pdf", some "hb", [], true⟩]
        ⟨[], false, [], ⟨0, 0, 0, 0⟩, []⟩).2).stats.reused_files =
        (([(⟨"/d/a.pdf", "a.pdf", some "ha", [String.toList "alpha"], false⟩ : PdfFile),
           ⟨"/d/b.pdf", "b.pdf", some "hb", [], true⟩]).filter
          (fun g => isReused ([] : List (String × CacheEntry)) g)).length ∧
      (⟨"/d/b.pdf", "b.pdf", some "hb", [], true⟩ : PdfFile).path ∉
        ((index_pdfs true
          [⟨"/d/a.pdf", "a.pdf", some "ha", [String.toList "alpha"], false⟩,
           ⟨"/d/b.pdf", "b.pdf", some "hb", [], true⟩]
          ⟨[], false, [], ⟨0, 0, 0, 0⟩, []⟩).2).diskCache.map Prod.fst) :=
  ⟨by decide, by decide, rfl, by decide,
    extract_error_skip_amended ⟨[], false, [], ⟨0, 0, 0, 0⟩, []⟩
      [⟨"/d/a.pdf", "a.pdf", some "ha", [String.toList "alpha"], false⟩,
       ⟨"/d/b.pdf", "b.pdf", some "hb", [], true⟩]
      ⟨"/d/b.pdf", "b.pdf", some "hb", [], true⟩
      (by decide) (by decide) rfl (by decide)⟩

/-- C4 amended: `deleted_files` is the net cache shrinkage
`max(0, old cache size - new cache size)` (stated for every pass as the
first, universally quantified conjunct), not the number of stale cache
entries; consequently renaming one previously cached file before
re-ingesting yields `deleted_files = 0` — not `1` — together with
`processed_files = 1` for the new name. -/
theorem deleted_files_amended (st : EngineState) (files : List PdfFile)
    (p : String) (e : CacheEntry) (f : PdfFile)
    (hc : st.diskCache = [(p, e)]) (hf : files = [f]) (hne : ¬ f.path = p)
    (hh : f.hashRes.isSome = true) (he : f.extractErr = false) :
    (∀ (st2 : EngineState) (files2 : List PdfFile),
      ((index_pdfs true files2 st2).2).stats.deleted_files =
        st2.diskCache.length - ((index_pdfs true files2 st2).2).diskCache.length) ∧
    ((index_pdfs true files st).2).stats.deleted_files = 0 ∧
    ((index_pdfs true files st).2).stats.processed_files = 1 := by
  have hgen : ∀ (st2 : EngineState) (files2 : List PdfFile),
      ((index_pdfs true files2 st2).2).stats.deleted_files =
        st2.diskCache.length - ((index_pdfs true files2 st2).2).diskCache.length := by
    intro st2 files2
    by_cases hne2 : files2 = []
    · subst hne2
      simp [index_pdfs]
    · simp [index_pdfs, hne2]
  obtain ⟨h, hh2⟩ := Option.isSome_iff_exists.mp hh
  have hlookup : List.lookup f.path st.diskCache = none := by
    rw [hc]
    simp only [List.lookup]
    rw [beq_eq_false_iff_ne.mpr hne]
  have hfne : files ≠ [] := by
    rw [hf]
    simp
  have hproc : processFiles st.diskCache files =
      ⟨extractDocs f.base f.pages,
        [(f.path, ⟨h, extractDocs f.base f.pages⟩)], 1, 0⟩ := by
    rw [hf]
    show stepFile st.diskCache f ⟨[], [], 0, 0⟩ = _
    simp [stepFile, hh2, hlookup, extractStep, he]
  refine ⟨hgen, ?_, ?_⟩
  · rw [hgen st files, hc]
    simp [index_pdfs, hfne, hproc]
  · simp [index_pdfs, hfne, hproc]

/-- Witness for C4 amended: the rename scenario with concrete files. -/
theorem deleted_files_amended_witness :
    (⟨[], false, [], ⟨0, 0, 0, 0⟩, [("/d/a.pdf", ⟨"ha", []⟩)]⟩ : EngineState).diskCache =
      [("/d/a.pdf", ⟨"ha", []⟩)] ∧
    [(⟨"/d/b.pdf", "b.pdf", some "hb", [String.toList "text"], false⟩ : PdfFile)] =
      [⟨"/d/b.pdf", "b.pdf", some "hb", [String.toList "text"], false⟩] ∧
    ¬ (⟨"/d/b.pdf", "b.pdf", some "hb", [String.toList "text"], false⟩ : PdfFile).path =
      "/d/a.pdf" ∧
    (⟨"/d/b.pdf", "b.pdf", some "hb", [String.toList "text"], false⟩ : PdfFile).hashRes.isSome
      = true ∧
    (⟨"/d/b.pdf", "b.pdf", some "hb", [String.toList "text"], false⟩ : PdfFile).extractErr
      = false ∧
    ((∀ (st2 : EngineState) (files2 : List PdfFile),
      ((index_pdfs true files2 st2).2).stats.deleted_files =
        st2.diskCache.length - ((index_pdfs true files2 st2).2).diskCache.length) ∧
    ((index_pdfs true [⟨"/d/b.pdf", "b.pdf", some "hb", [String.toList "text"], false⟩]
        ⟨[], false, [], ⟨0, 0, 0, 0⟩,
          [("/d/a.pdf", ⟨"ha", []⟩)]⟩).2).stats.deleted_files = 0 ∧
    ((index_pdfs true [⟨"/d/b.pdf", "b.pdf", some "hb", [String.toList "text"], false⟩]
        ⟨[], false, [], ⟨0, 0, 0, 0⟩,
          [("/d/a.pdf", ⟨"ha", []⟩)]⟩).2).stats.processed_files = 1) :=
  ⟨rfl, rfl, by decide, rfl, rfl,
    deleted_files_amended
      ⟨[], false, [], ⟨0, 0, 0, 0⟩, [("/d/a.pdf", ⟨"ha", []⟩)]⟩
      [⟨"/d/b.pdf", "b.pdf", some "hb", [String.toList "text"], false⟩]
      "/d/a.pdf" ⟨"ha", []⟩ ⟨"/d/b.pdf", "b.pdf", some "hb", [String.toList "text"], false⟩
      rfl rfl (by decide) rfl rfl⟩

/-- C5 amended: when every file of the unchanged directory hashed and
extracted successfully (so each got a cache entry on the first pass),
re-ingesting reports `processed_files = 0` and `reused_files` equal to
the file count, and rebuilds the same page index as the first pass;
both passes succeed. -/
theorem reingest_unchanged_amended (files : List PdfFile) (st : EngineState)
    (hnd : (files.map (fun f => f.path)).Nodup)
    (hok : ∀ f ∈ files, f.hashRes.isSome = true ∧ f.extractErr = false) :
    (index_pdfs true files st).1 = true ∧
    (index_pdfs true files (index_pdfs true files st).2).1 = true ∧
    ((index_pdfs true files (index_pdfs true files st).2).2).stats.processed_files = 0 ∧
    ((index_pdfs true files (index_pdfs true files st).2).2).stats.reused_files =
      files.length ∧
    ((index_pdfs true files (index_pdfs true files st).2).2).index =
      ((index_pdfs true files st).2).index := by
  by_cases hne : files = []
  · subst hne
    exact ⟨rfl, rfl, rfl, rfl, rfl⟩
  · obtain ⟨hcache1, hindex1⟩ := pass_allgood_state st files hne hok
    have hcond : ∀ f ∈ files,
        (isReused st.diskCache f || (f.hashRes.isSome && !f.extractErr)) = true := by
      intro f hf
      obtain ⟨hh, he⟩ := hok f hf
      simp [hh, he]
    have hc1 : (processFiles st.diskCache files).newFiles =
        files.map (fun g => (g.path, stepEntry st.diskCache g)) := by
      rw [processFiles_newFiles, List.filter_eq_self.mpr hcond]
    have hreused2 : ∀ f ∈ files,
        isReused (files.map (fun g => (g.path, stepEntry st.diskCache g))) f = true := by
      intro f hf
      obtain ⟨hh, he⟩ := hok f hf
      obtain ⟨h, hh2⟩ := Option.isSome_iff_exists.mp hh
      unfold isReused
      rw [hh2, lookup_map_self (fun g => stepEntry st.diskCache g) files f hnd hf]
      simp [stepEntry_hash st.diskCache f h hh2]
    have hdocs2 : ∀ f ∈ files,
        docsOf (files.map (fun g => (g.path, stepEntry st.diskCache g))) f =
          docsOf st.diskCache f := by
      intro f hf
      obtain ⟨hh, he⟩ := hok f hf
      obtain ⟨h, hh2⟩ := Option.isSome_iff_exists.mp hh
      have hlk : List.lookup f.path
            (files.map (fun g => (g.path, stepEntry st.diskCache g))) =
          some (stepEntry st.diskCache f) :=
        lookup_map_self (fun g => stepEntry st.diskCache g) files f hnd hf
      rw [docsOf_eq_of_match (files.map (fun g => (g.path, stepEntry st.diskCache g))) f h
          (stepEntry st.diskCache f) hh2 hlk (stepEntry_hash st.diskCache f h hh2),
        docsOf_stepEntry st.diskCache f hh]
    refine ⟨by simp [index_pdfs, hne], by simp [index_pdfs, hne], ?_, ?_, ?_⟩
    · have hfilter : files.filter
          (fun f => !(isReused (files.map (fun g => (g.path, stepEntry st.diskCache g))) f))
            = [] := by
        rw [List.filter_eq_nil_iff]
        intro f hf
        simp [hreused2 f hf]
      simp [index_pdfs, hne, hc1, processFiles_processed, hfilter]
    · have hfilter : files.filter
          (fun f => isReused (files.map (fun g => (g.path, stepEntry st.diskCache g))) f)
            = files :=
        List.filter_eq_self.mpr hreused2
      simp [index_pdfs, hne, hc1, processFiles_reused, hfilter]
    · have hmapeq :
          files.map (docsOf (files.map (fun g => (g.path, stepEntry st.diskCache g)))) =
            files.map (docsOf st.diskCache) :=
        List.map_congr_left hdocs2
      have hidx2 : ((index_pdfs true files (index_pdfs true files st).2).2).index =
          (files.map (docsOf st.diskCache)).flatten := by
        simp [index_pdfs, hne, hc1, processFiles_docs, hmapeq]
      rw [hidx2, hindex1]

/-- Witness for C5 amended: a single healthy two-page file. -/
theorem reingest_unchanged_amended_witness :
    (([(⟨"/d/a.pdf", "a.pdf", some "h", [String.toList "one", String.toList "two"],
        false⟩ : PdfFile)]).map (fun f => f.path)).Nodup ∧
    (∀ f ∈ [(⟨"/d/a.pdf", "a.pdf", some "h",
        [String.toList "one", String.toList "two"], false⟩ : PdfFile)],
      f.hashRes.isSome = true ∧ f.extractErr = false) ∧
    ((index_pdfs true
        [⟨"/d/a.pdf", "a.pdf", some "h", [String.toList "one", String.toList "two"], false⟩]
        ⟨[], false, [], ⟨0, 0, 0, 0⟩, []⟩).1 = true ∧
      (index_pdfs true
        [⟨"/d/a.pdf", "a.pdf", some "h", [String.toList "one", String.toList "two"], false⟩]
        (index_pdfs true
          [⟨"/d/a.pdf", "a.pdf", some "h", [String.toList "one", String.toList "two"], false⟩]
          ⟨[], false, [], ⟨0, 0, 0, 0⟩, []⟩).2).1 = true ∧
      ((index_pdfs true
        [⟨"/d/a.pdf", "a.pdf", some "h", [String.toList "one", String.toList "two"], false⟩]
        (index_pdfs true
          [⟨"/d/a.pdf", "a.pdf", some "h", [String.toList "one", String.toList "two"], false⟩]
          ⟨[], false, [], ⟨0, 0, 0, 0⟩, []⟩).2).2).stats.processed_files = 0 ∧
      ((index_pdfs true
        [⟨"/d/a.pdf", "a.pdf", some "h", [String.toList "one", String.toList "two"], false⟩]
        (index_pdfs true
          [⟨"/d/a.pdf", "a.pdf", some "h", [String.toList "one", String.toList "two"], false⟩]
          ⟨[], false, [], ⟨0, 0, 0, 0⟩, []⟩).2).2).stats.reused_files =
        ([(⟨"/d/a.pdf", "a.pdf", some "h", [String.toList "one", String.toList "two"],
          false⟩ : PdfFile)]).length ∧
      ((index_pdfs true
        [⟨"/d/a.pdf", "a.pdf", some "h", [String.toList "one", String.toList "two"], false⟩]
        (index_pdfs true
          [⟨"/d/a.pdf", "a.pdf", some "h", [String.toList "one", String.toList "two"], false⟩]
          ⟨[], false, [], ⟨0, 0, 0, 0⟩, []⟩).2).2).index =
        ((index_pdfs true
          [⟨"/d/a.pdf", "a.pdf", some "h", [String.toList "one", String.toList "two"], false⟩]
          ⟨[], false, [], ⟨0, 0, 0, 0⟩, []⟩).2).index) :=
  ⟨by decide, by decide,
    reingest_unchanged_amended
      [⟨"/d/a.pdf", "a.pdf", some "h", [String.toList "one", String.toList "two"], false⟩]
      ⟨[], false, [], ⟨0, 0, 0, 0⟩, []⟩ (by decide) (by decide)⟩

end LexRag
